import Mathlib

/-!
Shallow embedding of `src/google_drive.py` (class `GoogleDriveHandler`).

Strings are modelled as `List Char`.  Python exceptions are modelled with
`Except (List Char) α`, the `List Char` carrying the exception message.
The remote collaborators (the `requests` HTTP calls and the provider's
Drive API service) are modelled as explicit environment records whose
fields give the outcome of each network interaction; the handler's own
control flow, string manipulation and filtering logic are translated
directly from the source.
-/

namespace GoogleDrive

/-- One character of a Drive identifier (the source's regexes use the
class `[a-zA-Z0-9_-]`). -/
def idChar (c : Char) : Bool := c.isAlphanum || c == '_' || c == '-'

/-- A nonempty string over the Drive identifier alphabet. -/
def isIdent (s : List Char) : Bool := !s.isEmpty && s.all idChar

/-- Python `str.lower` (ASCII range, which is all the source compares). -/
def lowerL (s : List Char) : List Char := s.map Char.toLower

/-- Drop everything up to and including the first (leftmost) occurrence of
the nonempty pattern `c :: cs`; `none` when the pattern does not occur.
This is the primitive underlying Python's `sep in s` test and
`s.split(sep)` (Python splits at leftmost non-overlapping occurrences). -/
def dropFirstOcc (c : Char) (cs : List Char) : List Char → Option (List Char)
  | [] => none
  | d :: rest =>
    if (c :: cs).isPrefixOf (d :: rest) then some (rest.drop cs.length)
    else dropFirstOcc c cs rest

/-- Python `(c :: cs) in s` for a nonempty pattern. -/
def hasSub (c : Char) (cs : List Char) (s : List Char) : Bool :=
  (dropFirstOcc c cs s).isSome

/-- Number of positions of `s` at which the pattern `c :: cs` occurs. -/
def occCount (c : Char) (cs : List Char) : List Char → Nat
  | [] => 0
  | d :: rest =>
    (if (c :: cs).isPrefixOf (d :: rest) then 1 else 0) + occCount c cs rest

/-- Iterate `dropFirstOcc`: the text remaining after the last
non-overlapping leftmost occurrence of the pattern, i.e. the last element
of Python's `s.split(sep)`.  The fuel argument only bounds the iteration
count; since each successful `dropFirstOcc` strictly shortens the string,
`s.length` steps (as supplied by `splitLast`) always suffice. -/
def splitLastFuel (c : Char) (cs : List Char) : Nat → List Char → List Char
  | 0, s => s
  | Nat.succ n, s =>
    match dropFirstOcc c cs s with
    | none => s
    | some r => splitLastFuel c cs n r

/-- Python `s.split(c :: cs)[-1]` for a nonempty separator. -/
def splitLast (c : Char) (cs : List Char) (s : List Char) : List Char :=
  splitLastFuel c cs s.length s

/-- Python `s.split(q)[0]` for a single-character separator `q`:
everything before the first occurrence of `q` (all of `s` if absent). -/
def takeUntil (c : Char) : List Char → List Char
  | [] => []
  | d :: rest => if d = c then [] else d :: takeUntil c rest

/-- Python `pat in s`, allowing the empty pattern (used for stating the
"message mentions X" properties). -/
def hasOcc (pat : List Char) : List Char → Bool
  | [] => pat.isEmpty
  | d :: rest => pat.isPrefixOf (d :: rest) || hasOcc pat rest

/-- Python `s.endswith(suf)`. -/
def endsWithL (s suf : List Char) : Bool := suf.isSuffixOf s

/-- Python `s.startswith(p)`. -/
def startsWithL (s p : List Char) : Bool := p.isPrefixOf s

/-- Python `s.replace(old, new)` for the nonempty pattern `c :: cs`:
replace every leftmost non-overlapping occurrence.  Fuel as in
`splitLastFuel`; each step consumes at least one character, so the
`s.length` supplied by `replaceAll` always suffices. -/
def replaceAllFuel (c : Char) (cs new : List Char) : Nat → List Char → List Char
  | _, [] => []
  | 0, s => s
  | Nat.succ n, d :: rest =>
    if (c :: cs).isPrefixOf (d :: rest) then
      new ++ replaceAllFuel c cs new n (rest.drop cs.length)
    else d :: replaceAllFuel c cs new n rest

/-- Python `s.replace(c :: cs, new)`. -/
def replaceAll (c : Char) (cs new s : List Char) : List Char :=
  replaceAllFuel c cs new s.length s

/-- `GoogleDriveHandler.extract_folder_id` (src/google_drive.py:148-165).

    if '/folders/' in folder_url:
        return folder_url.split('/folders/')[-1].split('?')[0]
    elif 'id=' in folder_url:
        return folder_url.split('id=')[-1].split('&')[0]
    else:
        return folder_url
-/
def extract_folder_id (url : List Char) : List Char :=
  if hasSub '/' "folders/".toList url then
    takeUntil '?' (splitLast '/' "folders/".toList url)
  else if hasSub 'i' "d=".toList url then
    takeUntil '&' (splitLast 'i' "d=".toList url)
  else url

/-- MIME string `application/pdf`. -/
def pdfMime : List Char := "application/pdf".toList

/-- MIME string denoting a provider folder. -/
def folderMime : List Char := "application/vnd.google-apps.folder".toList

/-- MIME prefix of provider-native (Google Apps) types. -/
def gappsPrefix : List Char := "application/vnd.google-apps".toList

/-- The `ext_map` dictionary of `list_folder_files_public`
(src/google_drive.py:186-191). -/
def extMap : List (List Char × List (List Char)) :=
  [("application/pdf".toList, [".pdf".toList]),
   ("application/vnd.google-apps.document".toList,
    [".gdoc".toList, ".doc".toList, ".docx".toList]),
   ("image/jpeg".toList, [".jpg".toList, ".jpeg".toList]),
   ("image/png".toList, [".png".toList])]

/-- Dictionary lookup `ext_map[mime]` guarded by `mime in ext_map`. -/
def lookupExts (mime : List Char) : List (List Char × List (List Char)) → List (List Char)
  | [] => []
  | (k, v) :: rest => if k = mime then v else lookupExts mime rest

/-- The `allowed_extensions` list built at src/google_drive.py:193-196. -/
def allowedExtensions : List (List Char) → List (List Char)
  | [] => []
  | m :: rest => lookupExts m extMap ++ allowedExtensions rest

/-- Metadata of one provider item, as returned by the Drive file-list
query (`files(id, name, mimeType, size, createdTime)`).  `size` and
`createdTime` may be absent from the response dict (`item.get`). -/
structure FileMeta where
  id : List Char
  name : List Char
  mimeType : List Char
  size : Option Nat
  createdTime : Option (List Char)
deriving DecidableEq

/-- A file dictionary as built by the listing functions.  `path` is the
extra key present only in recursive-listing results; `none` models its
absence. -/
structure FileRec where
  id : List Char
  name : List Char
  mimeType : List Char
  size : Nat
  createdTime : Option (List Char)
  path : Option (List Char)
deriving DecidableEq

/-- A downloaded-file dictionary of `download_folder`: the listed file
dict spread together with the added `local_path` key. -/
structure DlRec where
  info : FileRec
  local_path : List Char
deriving DecidableEq

/-- The provider's folder tree as seen through the authenticated
file-list query.  `badFolder` is an item whose own children query raises
(the provider failure caught at src/google_drive.py:449-450).  Children
of a non-folder item are empty: a `'<id>' in parents` query on a plain
file id yields no items. -/
inductive DriveNode where
  | file (m : FileMeta)
  | folder (m : FileMeta) (children : List DriveNode)
  | badFolder (m : FileMeta) (err : List Char)

/-- The metadata dict the provider returns for an item. -/
def nodeMeta : DriveNode → FileMeta
  | .file m => m
  | .folder m _ => m
  | .badFolder m _ => m

/-- Outcome of the flat children query `'<folderId>' in parents and
trashed=false` on a node. -/
def flatQuery : DriveNode → Except (List Char) (List FileMeta)
  | .folder _ cs => .ok (cs.map nodeMeta)
  | .badFolder _ e => .error e
  | .file _ => .ok []

/-- The type filter `if not file_types or item['mimeType'] in file_types`
(src/google_drive.py:385 and 438); `none` is Python `None` and the empty
list is also falsy. -/
def passFilter (ft : Option (List (List Char))) (mime : List Char) : Bool :=
  match ft with
  | none => true
  | some l => l.isEmpty || l.contains mime

/-- `f"{path}/{item['name']}" if path else item['name']`
(src/google_drive.py:434 and 445). -/
def joinPath (path name : List Char) : List Char :=
  if path.isEmpty then name else path ++ '/' :: name

/-- The file dict appended by `_recurse_folder`
(src/google_drive.py:439-447), with its `path` key. -/
def mkPathRec (path : List Char) (m : FileMeta) : FileRec :=
  ⟨m.id, m.name, m.mimeType, m.size.getD 0, m.createdTime, some (joinPath path m.name)⟩

/-- The file dict appended by the flat OAuth listing
(src/google_drive.py:386-392), without a `path` key. -/
def mkFlatRec (m : FileMeta) : FileRec :=
  ⟨m.id, m.name, m.mimeType, m.size.getD 0, m.createdTime, none⟩

/-- The loop body of `_recurse_folder` (src/google_drive.py:418-450)
over the items of one folder: an item whose MIME type is the folder type
is recursed into (contributing nothing if its children query raises, or
if it has no children); any other item is emitted when it passes the
type filter.  Records accumulate in traversal order, as appends to the
shared `all_files` list do. -/
def recurseList (ft : Option (List (List Char))) (path : List Char) :
    List DriveNode → List FileRec
  | [] => []
  | .file m :: rest =>
    (if m.mimeType = folderMime then []
     else if passFilter ft m.mimeType then [mkPathRec path m] else []) ++
    recurseList ft path rest
  | .folder m cs :: rest =>
    (if m.mimeType = folderMime then recurseList ft (joinPath path m.name) cs
     else if passFilter ft m.mimeType then [mkPathRec path m] else []) ++
    recurseList ft path rest
  | .badFolder m _ :: rest =>
    (if m.mimeType = folderMime then []
     else if passFilter ft m.mimeType then [mkPathRec path m] else []) ++
    recurseList ft path rest

/-- The top-level `_recurse_folder(folder_id)` call on the folder named
by the extracted id: query its children and process them; a failing or
childless root contributes nothing (the query failure is caught). -/
def recurseFolder (ft : Option (List (List Char))) (path : List Char) :
    DriveNode → List FileRec
  | .folder _ cs => recurseList ft path cs
  | .badFolder _ _ => []
  | .file _ => []

/-- `GoogleDriveHandler.list_folder_recursive` (src/google_drive.py:401-456).
`service` is whether `self.service` is set; `root` is the provider node
denoted by the extracted folder id. -/
def list_folder_recursive (service : Bool) (root : DriveNode)
    (file_types : Option (List (List Char))) : Except (List Char) (List FileRec) :=
  if service then .ok (recurseFolder file_types [] root)
  else .error "Not authenticated with Google Drive".toList

/-- Outcome of fetching one candidate's file view page
`https://drive.google.com/file/d/<id>/view` (src/google_drive.py:268-292):
the request may raise (`fail`), or return a status code together with
the display name derived from the page HTML by the three regex methods
(title tag, `og:title` meta tag, JSON-LD `"name"`), `none` when none of
them matches. -/
inductive ViewOutcome where
  | fail (msg : List Char)
  | page (status : Nat) (derivedName : Option (List Char))

/-- Environment of the public (scraping) path of
`list_folder_files_public`: the folder page fetch (network error or HTTP
status), the set of candidate file ids the five regex heuristics extract
from the page body (Python collects them in a `set`; its iteration order
is abstracted as a list), the per-candidate view page, and the
last-resort `?usp=sharing` refetch (status code and whether any bare
`*.pdf` reference is found in its body). -/
structure PubEnv where
  folderPage : Except (List Char) Nat
  candidates : List (List Char)
  view : List Char → ViewOutcome
  sharing : Except (List Char) (Nat × Bool)

/-- The file dict appended for a surviving candidate
(src/google_drive.py:300-306). -/
def mkPubRec (fid filename : List Char) : FileRec :=
  ⟨fid, filename,
   if endsWithL (lowerL filename) ".pdf".toList then pdfMime else "unknown".toList,
   0, none, none⟩

/-- Processing of one candidate id (src/google_drive.py:262-310): skip
the folder's own id; fetch the view page, skipping the candidate if the
request raises or the status is not 200; derive the filename (falling
back to `file_<id>`); keep the candidate only if the lowered name ends
in one of the allowed extensions. -/
def scrapeCandidate (view : List Char → ViewOutcome) (allowed : List (List Char))
    (folderId fid : List Char) : List FileRec :=
  if fid = folderId then []
  else
    match view fid with
    | .fail _ => []
    | .page st nm =>
      if st = 200 then
        let filename := nm.getD ("file_".toList ++ fid)
        if allowed.any (fun ext => endsWithL (lowerL filename) ext) then
          [mkPubRec fid filename]
        else []
      else []

/-- The candidate loop of `list_folder_files_public`, appending surviving
records in candidate order. -/
def scrapeAll (view : List Char → ViewOutcome) (allowed : List (List Char))
    (folderId : List Char) : List (List Char) → List FileRec
  | [] => []
  | fid :: rest =>
    scrapeCandidate view allowed folderId fid ++ scrapeAll view allowed folderId rest

/-- The wrapper the outer `except` clause puts around any failure of the
public listing (src/google_drive.py:329-331). -/
def pubErrWrap (e : List Char) : List Char :=
  "Folder is not publicly accessible or error occurred: ".toList ++ e

/-- The message of the non-200 hard failure (src/google_drive.py:209). -/
def statusMsg (st : Nat) : List Char :=
  "Cannot access folder. Status: ".toList ++ (toString st).toList

/-- `GoogleDriveHandler.list_folder_files_public`
(src/google_drive.py:167-331).  The second component records whether the
last-resort pass (src/google_drive.py:312-324) issued its warning: the
pass runs only when `files` is empty, and prints a warning when the
`?usp=sharing` refetch returns 200 and finds a bare `*.pdf` reference;
its own failures are swallowed by `except: pass`.  It never touches
`files`. -/
def list_folder_files_public (env : PubEnv) (url : List Char)
    (file_types : Option (List (List Char))) :
    Except (List Char) (List FileRec) × Bool :=
  let folderId := extract_folder_id url
  let ft := file_types.getD [pdfMime]
  let allowed := allowedExtensions ft
  match env.folderPage with
  | .error e => (.error (pubErrWrap e), false)
  | .ok st =>
    if st = 200 then
      let files := scrapeAll env.view allowed folderId env.candidates
      let warned :=
        if files.isEmpty then
          match env.sharing with
          | .ok (200, true) => true
          | _ => false
        else false
      (.ok files, warned)
    else (.error (pubErrWrap (statusMsg st)), false)

/-- The default OAuth type filter of `list_folder_files`
(src/google_drive.py:360-367). -/
def defaultOauthTypes : List (List Char) :=
  ["application/pdf".toList,
   "application/vnd.google-apps.document".toList,
   "application/vnd.openxmlformats-officedocument.wordprocessingml.document".toList,
   "image/jpeg".toList,
   "image/png".toList]

/-- The hard failure of `list_folder_files` when the public path fails
and no session exists (src/google_drive.py:351-354). -/
def listAuthMsg (e : List Char) : List Char :=
  "Folder requires authentication. Public access failed: ".toList ++ e ++
  "\nPlease authenticate with OAuth2 to access private folders.".toList

/-- The filter loop of the OAuth flat listing (src/google_drive.py:384-392). -/
def oauthFilter (ft : List (List Char)) : List FileMeta → List FileRec
  | [] => []
  | m :: rest =>
    (if ft.isEmpty || ft.contains m.mimeType then [mkFlatRec m] else []) ++
    oauthFilter ft rest

/-- `GoogleDriveHandler.list_folder_files` (src/google_drive.py:333-399):
try the public listing; on failure, hard-fail without a session, else
run the flat OAuth query on the folder denoted by the extracted id
(`root`) and filter client-side. -/
def list_folder_files (penv : PubEnv) (service : Bool) (root : DriveNode)
    (url : List Char) (file_types : Option (List (List Char))) :
    Except (List Char) (List FileRec) :=
  match (list_folder_files_public penv url file_types).1 with
  | .ok fs => .ok fs
  | .error pe =>
    if service then
      let ft := file_types.getD defaultOauthTypes
      match flatQuery root with
      | .error e => .error e
      | .ok metas => .ok (oauthFilter ft metas)
    else .error (listAuthMsg pe)

/-- Environment of `download_file`: the whole public direct-download
attempt (`download_file_public`, src/google_drive.py:458-498) abstracted
as per-file outcome, the temp directory, and the authenticated
collaborator calls — metadata fetch (returning the MIME type), and the
chunked export/media downloads abstracted as their success or failure. -/
structure DlEnv where
  publicDl : List Char → List Char → Except (List Char) (List Char)
  tempDir : List Char
  metadata : List Char → Except (List Char) (List Char)
  exportPdf : List Char → Except (List Char) Unit
  getMedia : List Char → Except (List Char) Unit

/-- `os.path.join(self.temp_dir, file_name)` in its ordinary case (no
trailing separator on the directory, relative file name). -/
def pathJoin (dir fn : List Char) : List Char := dir ++ '/' :: fn

/-- The hard failure of `download_file` when the public path fails and
no session exists (src/google_drive.py:517-521). -/
def dlAuthMsg (e : List Char) : List Char :=
  "File requires authentication. Public download failed: ".toList ++ e ++
  "\nPlease authenticate with OAuth2 to access private files.".toList

/-- The unsupported provider-native type failure (src/google_drive.py:538). -/
def unsupportedMsg (mime : List Char) : List Char :=
  "Unsupported Google Apps type: ".toList ++ mime

/-- `GoogleDriveHandler.download_file` (src/google_drive.py:500-557):
try the public download; on failure, hard-fail without a session;
otherwise fetch the metadata, export provider-native documents as PDF
(rewriting `.gdoc` to `.pdf` in the target name), reject any other
provider-native subtype, and download regular files as raw media. -/
def download_file (env : DlEnv) (service : Bool) (fid fname : List Char) :
    Except (List Char) (List Char) :=
  match env.publicDl fid fname with
  | .ok p => .ok p
  | .error pe =>
    if service then
      match env.metadata fid with
      | .error e => .error e
      | .ok mime =>
        if startsWithL mime gappsPrefix then
          if hasOcc "document".toList mime then
            let fname2 := replaceAll '.' "gdoc".toList ".pdf".toList fname
            match env.exportPdf fid with
            | .ok _ => .ok (pathJoin env.tempDir fname2)
            | .error e => .error e
          else .error (unsupportedMsg mime)
        else
          match env.getMedia fid with
          | .ok _ => .ok (pathJoin env.tempDir fname)
          | .error e => .error e
    else .error (dlAuthMsg pe)

/-- The file-list step of `download_folder` (src/google_drive.py:570-574):
recursive or flat per the flag, both called with `file_types=None`. -/
def folderListing (penv : PubEnv) (service : Bool) (root : DriveNode)
    (url : List Char) (recursive : Bool) : Except (List Char) (List FileRec) :=
  if recursive then list_folder_recursive service root none
  else list_folder_files penv service root url none

/-- The download loop of `download_folder` (src/google_drive.py:579-588):
each file downloaded independently, failures caught and skipped. -/
def dlLoop (denv : DlEnv) (service : Bool) : List FileRec → List DlRec
  | [] => []
  | f :: rest =>
    match download_file denv service f.id f.name with
    | .ok p => ⟨f, p⟩ :: dlLoop denv service rest
    | .error _ => dlLoop denv service rest

/-- `GoogleDriveHandler.download_folder` (src/google_drive.py:559-589). -/
def download_folder (denv : DlEnv) (penv : PubEnv) (service : Bool)
    (root : DriveNode) (url : List Char) (recursive : Bool) :
    Except (List Char) (List DlRec) :=
  match folderListing penv service root url recursive with
  | .error e => .error e
  | .ok files => .ok (dlLoop denv service files)

/-! Claim-statement predicates for the URL/ID parser.  These three shapes
transcribe the claim's words: a URL containing a `/folders/F` path
segment (optionally followed by `?...`), a URL containing an `id=F`
query parameter (optionally followed by `&...`), and the bare id `F`. -/

/-- Claim shape: a URL containing the path segment `/folders/F`,
optionally followed by a query string. -/
def foldersShape (F url : List Char) : Prop :=
  isIdent F = true ∧
  ∃ pre post, url = pre ++ "/folders/".toList ++ F ++ post ∧
    (post = [] ∨ ∃ r, post = '?' :: r)

/-- Claim shape: a URL containing the query parameter `id=F`, possibly
followed by `&...` (and not of the `/folders/` shape, which the parser
checks first). -/
def idShape (F url : List Char) : Prop :=
  isIdent F = true ∧ hasSub '/' "folders/".toList url = false ∧
  ∃ pre post, url = pre ++ "id=".toList ++ F ++ post ∧
    (post = [] ∨ ∃ r, post = '&' :: r)

/-- Claim shape: the bare identifier. -/
def bareShape (F url : List Char) : Prop := isIdent F = true ∧ url = F

/-- Amended `/folders/` shape: additionally, the marker `/folders/`
occurs exactly once in the URL (the source keeps the text after the
*last* occurrence). -/
def foldersShapeOnce (F url : List Char) : Prop :=
  isIdent F = true ∧
  ∃ pre post, url = pre ++ "/folders/".toList ++ F ++ post ∧
    occCount '/' "folders/".toList url = 1 ∧
    (post = [] ∨ ∃ r, post = '?' :: r)

/-- Amended `id=` shape: additionally, the marker `id=` occurs exactly
once in the URL (a later query parameter such as `pid=3` contains a
second occurrence and hijacks the split). -/
def idShapeOnce (F url : List Char) : Prop :=
  isIdent F = true ∧ hasSub '/' "folders/".toList url = false ∧
  ∃ pre post, url = pre ++ "id=".toList ++ F ++ post ∧
    occCount 'i' "d=".toList url = 1 ∧
    (post = [] ∨ ∃ r, post = '&' :: r)

/-! String-matching lemmas used to settle the parser claims. -/

theorem prefixOf_iff (p : List Char) : ∀ (s : List Char),
    p.isPrefixOf s = true ↔ ∃ t, p ++ t = s := by
  induction p with
  | nil => intro s; simp [List.isPrefixOf]
  | cons a as ih =>
    intro s
    cases s with
    | nil => simp [List.isPrefixOf]
    | cons b bs =>
      simp only [List.isPrefixOf, Bool.and_eq_true, beq_iff_eq, ih bs]
      constructor
      · rintro ⟨rfl, t, rfl⟩; exact ⟨t, rfl⟩
      · rintro ⟨t, ht⟩
        rw [List.cons_append] at ht
        injection ht with h1 h2
        exact ⟨h1, t, h2⟩

theorem suffixOf_iff (p s : List Char) :
    p.isSuffixOf s = true ↔ ∃ t, t ++ p = s := by
  show p.reverse.isPrefixOf s.reverse = true ↔ _
  rw [prefixOf_iff]
  constructor
  · rintro ⟨t, ht⟩
    refine ⟨t.reverse, ?_⟩
    have := congrArg List.reverse ht
    simpa [List.reverse_append] using this
  · rintro ⟨t, rfl⟩
    exact ⟨t.reverse, by simp [List.reverse_append]⟩

theorem endsWith_iff (s suf : List Char) :
    endsWithL s suf = true ↔ ∃ t, t ++ suf = s := suffixOf_iff suf s

theorem hasOcc_of_append (p : List Char) : ∀ (a b : List Char),
    hasOcc p (a ++ p ++ b) = true := by
  intro a
  induction a with
  | nil =>
    intro b
    cases p with
    | nil => cases b <;> simp [hasOcc]
    | cons c cs =>
      have hp : (c :: cs).isPrefixOf ((c :: cs) ++ b) = true :=
        (prefixOf_iff _ _).2 ⟨b, rfl⟩
      simp [hasOcc, hp]
  | cons d a ih =>
    intro b
    rw [List.append_assoc, List.cons_append]
    rw [show hasOcc p (d :: (a ++ (p ++ b))) =
        (p.isPrefixOf (d :: (a ++ (p ++ b))) || hasOcc p (a ++ (p ++ b))) from rfl]
    rw [← List.append_assoc, ih b, Bool.or_true]

theorem dropFirstOcc_sound {c : Char} {cs : List Char} : ∀ {s r : List Char},
    dropFirstOcc c cs s = some r → ∃ a, s = a ++ (c :: cs) ++ r := by
  intro s
  induction s with
  | nil => intro r h; simp [dropFirstOcc] at h
  | cons d rest ih =>
    intro r h
    rw [dropFirstOcc] at h
    split at h
    · next hp =>
      obtain ⟨t, ht⟩ := (prefixOf_iff _ _).1 hp
      rw [List.cons_append] at ht
      injection ht with h1 h2
      injection h with h3
      refine ⟨[], ?_⟩
      subst h1
      rw [← h3, ← h2, List.drop_left]
      simp
    · next hp =>
      obtain ⟨a, ha⟩ := ih h
      exact ⟨d :: a, by simp [ha]⟩

theorem dropFirstOcc_isSome (c : Char) (cs : List Char) : ∀ (a b : List Char),
    (dropFirstOcc c cs (a ++ (c :: cs) ++ b)).isSome = true := by
  intro a
  induction a with
  | nil =>
    intro b
    have hp : (c :: cs).isPrefixOf (c :: (cs ++ b)) = true :=
      (prefixOf_iff _ _).2 ⟨b, by simp⟩
    simp only [List.nil_append, List.cons_append]
    simp [dropFirstOcc, hp]
  | cons d a ih =>
    intro b
    simp only [List.cons_append]
    rw [dropFirstOcc]
    split
    · rfl
    · simpa using ih b

theorem occCount_pos (c : Char) (cs : List Char) : ∀ (a b : List Char),
    1 ≤ occCount c cs (a ++ (c :: cs) ++ b) := by
  intro a
  induction a with
  | nil =>
    intro b
    have hp : (c :: cs).isPrefixOf (c :: (cs ++ b)) = true :=
      (prefixOf_iff _ _).2 ⟨b, by simp⟩
    simp only [List.nil_append, List.cons_append]
    simp [occCount, hp]
  | cons d a ih =>
    intro b
    simp only [List.cons_append]
    rw [occCount]
    have := ih b
    omega

theorem occCount_le_append (c : Char) (cs : List Char) : ∀ (a t : List Char),
    occCount c cs t ≤ occCount c cs (a ++ t) := by
  intro a
  induction a with
  | nil => intro t; simp
  | cons d a ih =>
    intro t
    rw [List.cons_append, occCount]
    have := ih t
    omega

theorem occCount_two {c : Char} {cs : List Char} {s a b a2 b2 : List Char}
    (h1 : s = a ++ (c :: cs) ++ b) (h2 : s = a2 ++ (c :: cs) ++ b2)
    (hlt : a.length < a2.length) : 2 ≤ occCount c cs s := by
  have e1 : s = a ++ (c :: (cs ++ b)) := by simp [h1]
  have hmono : occCount c cs (c :: (cs ++ b)) ≤ occCount c cs s := by
    rw [e1]; exact occCount_le_append c cs a _
  have hp : (c :: cs).isPrefixOf (c :: (cs ++ b)) = true :=
    (prefixOf_iff _ _).2 ⟨b, by simp⟩
  have hhead : occCount c cs (c :: (cs ++ b)) = 1 + occCount c cs (cs ++ b) := by
    rw [occCount, if_pos hp]
  have hdrop1 : s.drop (a.length + 1) = cs ++ b := by
    rw [e1, List.drop_append_eq_append_drop]
    have hx : a.length + 1 - a.length = 1 := by omega
    simp [hx]
  have hdrop2 : s.drop (a.length + 1) =
      a2.drop (a.length + 1) ++ (c :: cs) ++ b2 := by
    conv_lhs => rw [h2]
    rw [List.append_assoc, List.drop_append_eq_append_drop]
    have hx : a.length + 1 - a2.length = 0 := by omega
    simp [hx, List.append_assoc]
  have htail : 1 ≤ occCount c cs (cs ++ b) := by
    rw [← hdrop1, hdrop2]
    exact occCount_pos c cs _ _
  omega

theorem occ_unique {c : Char} {cs : List Char} {s pre suf a b : List Char}
    (hocc : occCount c cs s = 1) (h1 : s = pre ++ (c :: cs) ++ suf)
    (h2 : s = a ++ (c :: cs) ++ b) : a = pre ∧ b = suf := by
  rcases Nat.lt_trichotomy a.length pre.length with hlt | heq | hgt
  · exact absurd (occCount_two h2 h1 hlt) (by omega)
  · have ha : a = pre := by
      have t1 : s.take a.length = a := by
        rw [h2, List.append_assoc, List.take_left]
      have t2 : s.take pre.length = pre := by
        rw [h1, List.append_assoc, List.take_left]
      rw [← t1, ← t2, heq]
    subst ha
    refine ⟨rfl, ?_⟩
    have hb : a ++ ((c :: cs) ++ b) = a ++ ((c :: cs) ++ suf) := by
      rw [← List.append_assoc, ← h2, h1, List.append_assoc]
    have := List.append_cancel_left hb
    exact List.append_cancel_left this
  · exact absurd (occCount_two h1 h2 hgt) (by omega)

theorem splitLastFuel_stop {c : Char} {cs s : List Char}
    (h : dropFirstOcc c cs s = none) :
    ∀ (n : Nat), splitLastFuel c cs n s = s := by
  intro n
  cases n with
  | zero => rfl
  | succ m => simp [splitLastFuel, h]

theorem splitLastFuel_eq {c : Char} {cs : List Char} : ∀ (n : Nat)
    (s pre suf : List Char), s.length ≤ n → occCount c cs s = 1 →
    s = pre ++ (c :: cs) ++ suf → splitLastFuel c cs n s = suf := by
  intro n
  induction n with
  | zero =>
    intro s pre suf hlen hocc hdec
    exfalso
    subst hdec
    simp at hlen
  | succ n ih =>
    intro s pre suf hlen hocc hdec
    have hsome : (dropFirstOcc c cs s).isSome = true := by
      rw [hdec]; exact dropFirstOcc_isSome c cs pre suf
    obtain ⟨r, hr⟩ := Option.isSome_iff_exists.1 hsome
    obtain ⟨a, ha⟩ := dropFirstOcc_sound hr
    obtain ⟨hapre, hrsuf⟩ := occ_unique hocc hdec ha
    rw [hrsuf] at hr
    have hstep : splitLastFuel c cs (n + 1) s = splitLastFuel c cs n suf := by
      simp [splitLastFuel, hr]
    rw [hstep]
    have hnone : dropFirstOcc c cs suf = none := by
      cases hd : dropFirstOcc c cs suf with
      | none => rfl
      | some r2 =>
        exfalso
        obtain ⟨x, hx⟩ := dropFirstOcc_sound hd
        have hdec2 : s = (pre ++ (c :: cs) ++ x) ++ (c :: cs) ++ r2 := by
          rw [hdec, hx]; simp [List.append_assoc]
        have h2 := occCount_two hdec hdec2
          (by simp only [List.length_append, List.length_cons]; omega)
        omega
    exact splitLastFuel_stop hnone n

theorem splitLast_eq {c : Char} {cs : List Char} {s pre suf : List Char}
    (hocc : occCount c cs s = 1) (hdec : s = pre ++ (c :: cs) ++ suf) :
    splitLast c cs s = suf :=
  splitLastFuel_eq s.length s pre suf le_rfl hocc hdec

theorem takeUntil_append {q : Char} : ∀ {F post : List Char},
    (∀ ch ∈ F, ch ≠ q) → (post = [] ∨ ∃ r, post = q :: r) →
    takeUntil q (F ++ post) = F := by
  intro F
  induction F with
  | nil =>
    rintro post _ (rfl | ⟨r, rfl⟩)
    · rfl
    · simp [takeUntil]
  | cons d F ih =>
    intro post hne hpost
    have hd : ¬ d = q := hne d (by simp)
    rw [List.cons_append, takeUntil, if_neg hd]
    rw [ih (fun ch hch => hne ch (by simp [hch])) hpost]

theorem ident_mem {F : List Char} (h : isIdent F = true) :
    ∀ ch ∈ F, idChar ch = true := by
  rw [isIdent, Bool.and_eq_true] at h
  exact fun ch hch => List.all_eq_true.1 h.2 ch hch

theorem idChar_ne {ch : Char} (h : idChar ch = true) :
    ch ≠ '?' ∧ ch ≠ '&' ∧ ch ≠ '/' ∧ ch ≠ '=' := by
  refine ⟨?_, ?_, ?_, ?_⟩ <;> rintro rfl <;> exact absurd h (by decide)

theorem hasSub_mem {c : Char} {cs s : List Char} (h : hasSub c cs s = true) :
    ∀ ch ∈ c :: cs, ch ∈ s := by
  rw [hasSub] at h
  obtain ⟨r, hr⟩ := Option.isSome_iff_exists.1 h
  obtain ⟨a, ha⟩ := dropFirstOcc_sound hr
  intro ch hch
  rw [ha]
  simp only [List.append_assoc, List.mem_append]
  exact Or.inr (Or.inl hch)

/-- Claim C1, as stated, is false: the URL `x?id=F1&pid=3` contains the
query parameter `id=F1` followed by `&...`, yet `extract_folder_id`
returns `3` — the split keeps the text after the *last* occurrence of
`id=`, and `pid=3` contains a second one. -/
theorem c1_counterexample : ¬ (∀ (F url : List Char),
    foldersShape F url ∨ idShape F url ∨ bareShape F url →
    extract_folder_id url = F) := by
  intro h
  have hx := h "F1".toList "x?id=F1&pid=3".toList
    (Or.inr (Or.inl ⟨by decide, by decide,
      "x?".toList, "&pid=3".toList, by decide, Or.inr ⟨"pid=3".toList, by decide⟩⟩))
  exact absurd hx (by decide)

/-- Claim C1, amended: `extract_folder_id` returns exactly `F` on the
three accepted shapes, provided the `/folders/` (resp. `id=`) marker
occurs exactly once in the URL. -/
theorem c1_id_parser_amended : ∀ (F url : List Char),
    foldersShapeOnce F url ∨ idShapeOnce F url ∨ bareShape F url →
    extract_folder_id url = F := by
  rintro F url
    (⟨hF, pre, post, hurl, hocc, hpost⟩ | ⟨hF, hnf, pre, post, hurl, hocc, hpost⟩ |
      ⟨hF, rfl⟩)
  · have hdec : url = pre ++ ('/' :: "folders/".toList) ++ (F ++ post) := by
      rw [hurl, show "/folders/".toList = '/' :: "folders/".toList from rfl]
      simp [List.append_assoc]
    have hsub : hasSub '/' "folders/".toList url = true := by
      rw [hasSub, hdec]; exact dropFirstOcc_isSome _ _ _ _
    rw [extract_folder_id, if_pos hsub, splitLast_eq hocc hdec]
    exact takeUntil_append (fun ch hch => (idChar_ne (ident_mem hF ch hch)).1) hpost
  · have hdec : url = pre ++ ('i' :: "d=".toList) ++ (F ++ post) := by
      rw [hurl, show "id=".toList = 'i' :: "d=".toList from rfl]
      simp [List.append_assoc]
    have hsub : hasSub 'i' "d=".toList url = true := by
      rw [hasSub, hdec]; exact dropFirstOcc_isSome _ _ _ _
    rw [extract_folder_id, if_neg (by rw [hnf]; exact Bool.false_ne_true),
      if_pos hsub, splitLast_eq hocc hdec]
    exact takeUntil_append (fun ch hch => (idChar_ne (ident_mem hF ch hch)).2.1) hpost
  · have h1 : hasSub '/' "folders/".toList url = false := by
      cases h : hasSub '/' "folders/".toList url with
      | false => rfl
      | true =>
        exact absurd (ident_mem hF '/' (hasSub_mem h '/' (by simp))) (by decide)
    have h2 : hasSub 'i' "d=".toList url = false := by
      cases h : hasSub 'i' "d=".toList url with
      | false => rfl
      | true =>
        exact absurd (ident_mem hF '=' (hasSub_mem h '=' (by decide))) (by decide)
    rw [extract_folder_id, if_neg (by rw [h1]; exact Bool.false_ne_true),
      if_neg (by rw [h2]; exact Bool.false_ne_true)]

/-- Witness for C1's amended theorem at a concrete folder URL. -/
theorem c1_id_parser_amended_witness :
    extract_folder_id "https://d.io/drive/folders/ABC123?usp=x".toList =
      "ABC123".toList :=
  c1_id_parser_amended "ABC123".toList _
    (Or.inl ⟨by decide, "https://d.io/drive".toList, "?usp=x".toList, by decide,
      by decide, Or.inr ⟨"usp=x".toList, by decide⟩⟩)

theorem endsWith_append_left {l suf : List Char} (a : List Char)
    (h : endsWithL l suf = true) : endsWithL (a ++ l) suf = true := by
  obtain ⟨t, ht⟩ := (endsWith_iff _ _).1 h
  exact (endsWith_iff _ _).2 ⟨a ++ t, by rw [← ht]; simp [List.append_assoc]⟩

theorem replaceAllFuel_nil (c : Char) (cs new : List Char) (n : Nat) :
    replaceAllFuel c cs new n [] = [] := by
  cases n <;> rfl

theorem gdoc_overlap : ∀ (t u : List Char),
    t ++ ".gdoc".toList = ".gdoc".toList ++ u → t ≠ [] → t.length < 5 → False := by
  intro t u ht hne hlen
  rw [show ".gdoc".toList = '.' :: 'g' :: 'd' :: 'o' :: 'c' :: [] from rfl] at ht
  cases t with
  | nil => exact hne rfl
  | cons a t2 =>
    simp only [List.cons_append] at ht
    injection ht with h1 ht
    cases t2 with
    | nil =>
      simp only [List.nil_append] at ht
      injection ht with h2 _
      exact absurd h2 (by decide)
    | cons b t3 =>
      simp only [List.cons_append] at ht
      injection ht with h2 ht
      cases t3 with
      | nil =>
        simp only [List.nil_append] at ht
        injection ht with h3 _
        exact absurd h3 (by decide)
      | cons c3 t4 =>
        simp only [List.cons_append] at ht
        injection ht with h3 ht
        cases t4 with
        | nil =>
          simp only [List.nil_append] at ht
          injection ht with h4 _
          exact absurd h4 (by decide)
        | cons e t5 =>
          simp only [List.cons_append] at ht
          injection ht with h4 ht
          cases t5 with
          | nil =>
            simp only [List.nil_append] at ht
            injection ht with h5 _
            exact absurd h5 (by decide)
          | cons f t6 =>
            simp only [List.length_cons] at hlen
            omega

theorem replaceGdocFuel_endsWith : ∀ (n : Nat) (s : List Char), s.length ≤ n →
    endsWithL s ".gdoc".toList = true →
    endsWithL (replaceAllFuel '.' "gdoc".toList ".pdf".toList n s)
      ".pdf".toList = true := by
  intro n
  induction n with
  | zero =>
    intro s hlen hsuf
    obtain ⟨t, ht⟩ := (endsWith_iff _ _).1 hsuf
    exfalso
    have := congrArg List.length ht
    simp at this
    omega
  | succ n ih =>
    intro s hlen hsuf
    obtain ⟨t, ht⟩ := (endsWith_iff _ _).1 hsuf
    cases s with
    | nil =>
      exfalso
      have := congrArg List.length ht
      simp at this
    | cons d rest =>
      by_cases hp : (('.' : Char) :: "gdoc".toList).isPrefixOf (d :: rest) = true
      · obtain ⟨u, hu⟩ := (prefixOf_iff _ _).1 hp
        rw [List.cons_append] at hu
        injection hu with hd hrest
        have hstep : replaceAllFuel '.' "gdoc".toList ".pdf".toList (n + 1) (d :: rest) =
            ".pdf".toList ++ replaceAllFuel '.' "gdoc".toList ".pdf".toList n u := by
          rw [replaceAllFuel, if_pos hp, ← hrest, List.drop_left]
        rw [hstep]
        cases u with
        | nil =>
          rw [replaceAllFuel_nil, List.append_nil]
          decide
        | cons u0 u1 =>
          have hs : d :: rest = ".gdoc".toList ++ (u0 :: u1) := by
            rw [show ".gdoc".toList = '.' :: "gdoc".toList from rfl, List.cons_append,
              ← hd, ← hrest]
          have htu : t ++ ".gdoc".toList = ".gdoc".toList ++ (u0 :: u1) := by
            rw [ht, hs]
          have hlens : t.length = (u0 :: u1).length := by
            have := congrArg List.length htu
            simp only [List.length_append] at this
            omega
          by_cases hbig : 5 ≤ t.length
          · have hu2 : u0 :: u1 = t.drop (".gdoc".toList.length) ++ ".gdoc".toList := by
              have h5 : (t ++ ".gdoc".toList).drop (".gdoc".toList.length) =
                  (".gdoc".toList ++ (u0 :: u1)).drop (".gdoc".toList.length) := by
                rw [htu]
              rw [List.drop_left] at h5
              rw [List.drop_append_eq_append_drop] at h5
              have hz : ".gdoc".toList.length - t.length = 0 := by
                simp only [show ".gdoc".toList.length = 5 from rfl] at hbig ⊢
                omega
              rw [hz] at h5
              simp at h5
              exact h5.symm
            have hsuf2 : endsWithL (u0 :: u1) ".gdoc".toList = true :=
              (endsWith_iff _ _).2 ⟨_, hu2.symm⟩
            have hlen2 : (u0 :: u1).length ≤ n := by
              have hrl := congrArg List.length hrest
              simp only [List.length_append, List.length_cons,
                show ("gdoc".toList).length = 4 from rfl] at hrl
              simp only [List.length_cons] at hlen ⊢
              omega
            exact endsWith_append_left _ (ih _ hlen2 hsuf2)
          · exfalso
            exact gdoc_overlap t (u0 :: u1) htu
              (by intro hh; rw [hh] at hlens; simp at hlens) (by omega)
      · have hstep : replaceAllFuel '.' "gdoc".toList ".pdf".toList (n + 1) (d :: rest) =
            d :: replaceAllFuel '.' "gdoc".toList ".pdf".toList n rest := by
          rw [replaceAllFuel, if_neg hp]
        rw [hstep]
        cases t with
        | nil =>
          exfalso
          apply hp
          rw [List.nil_append] at ht
          exact (prefixOf_iff _ _).2 ⟨[], by rw [List.append_nil]; exact ht⟩
        | cons a t2 =>
          rw [List.cons_append] at ht
          injection ht with _ ht2
          have hsuf2 : endsWithL rest ".gdoc".toList = true :=
            (endsWith_iff _ _).2 ⟨t2, ht2⟩
          have hlen2 : rest.length ≤ n := by
            simp only [List.length_cons] at hlen
            omega
          exact endsWith_append_left [d] (ih rest hlen2 hsuf2)

theorem replaceGdoc_endsWith {s : List Char} (h : endsWithL s ".gdoc".toList = true) :
    endsWithL (replaceAll '.' "gdoc".toList ".pdf".toList s) ".pdf".toList = true :=
  replaceGdocFuel_endsWith s.length s le_rfl h

/-- Claim C2: when the public download fails with cause `e` and no
session exists, `download_file` fails with the fixed message built from
`e` only — regardless of the authenticated-path environment fields, so
the authenticated path is never consulted — and that message mentions
both the public failure cause and the need for authentication. -/
theorem c2_download_requires_auth (denv : DlEnv) (fid fname e : List Char)
    (h : denv.publicDl fid fname = .error e) :
    download_file denv false fid fname = .error (dlAuthMsg e) ∧
    hasOcc e (dlAuthMsg e) = true ∧
    hasOcc "authentication".toList (dlAuthMsg e) = true := by
  refine ⟨?_, ?_, ?_⟩
  · simp [download_file, h]
  · rw [dlAuthMsg]
    exact hasOcc_of_append e _ _
  · rw [dlAuthMsg,
      show "File requires authentication. Public download failed: ".toList =
        "File requires ".toList ++ "authentication".toList ++
          ". Public download failed: ".toList from by decide]
    have := hasOcc_of_append "authentication".toList "File requires ".toList
      (". Public download failed: ".toList ++ e ++
        "\nPlease authenticate with OAuth2 to access private files.".toList)
    simpa [List.append_assoc] using this

/-- Witness for C2 at a concrete environment whose public download
always fails. -/
theorem c2_download_requires_auth_witness :
    download_file
      ⟨fun _ _ => Except.error "boom".toList, "/tmp".toList,
        fun _ => Except.ok "application/pdf".toList,
        fun _ => Except.ok (), fun _ => Except.ok ()⟩
      false "f1".toList "a.pdf".toList = Except.error (dlAuthMsg "boom".toList) ∧
    hasOcc "boom".toList (dlAuthMsg "boom".toList) = true ∧
    hasOcc "authentication".toList (dlAuthMsg "boom".toList) = true :=
  c2_download_requires_auth _ _ _ _ rfl

/-- Claim C5: on the authenticated path, a provider-native `document`
file is downloaded via the PDF export and saved under a `.pdf` name (the
`.gdoc` requested extension is rewritten), while any other
provider-native subtype is a hard failure. -/
theorem c5_export_native_document (env : DlEnv) (fid fname pe mime : List Char)
    (hpub : env.publicDl fid fname = .error pe)
    (hmeta : env.metadata fid = .ok mime)
    (hgapps : startsWithL mime gappsPrefix = true) :
    (hasOcc "document".toList mime = true → env.exportPdf fid = .ok () →
      endsWithL fname ".gdoc".toList = true →
      download_file env true fid fname =
        .ok (pathJoin env.tempDir (replaceAll '.' "gdoc".toList ".pdf".toList fname)) ∧
      endsWithL (pathJoin env.tempDir (replaceAll '.' "gdoc".toList ".pdf".toList fname))
        ".pdf".toList = true) ∧
    (hasOcc "document".toList mime = false →
      download_file env true fid fname = .error (unsupportedMsg mime)) := by
  constructor
  · intro hdoc hexp hgdoc
    have hdocL : hasOcc ('d' :: 'o' :: 'c' :: 'u' :: 'm' :: 'e' :: 'n' :: 't' :: [])
        mime = true := hdoc
    constructor
    · simp [download_file, hpub, hmeta, hgapps, hdocL, hexp]
    · rw [pathJoin, show env.tempDir ++ '/' :: replaceAll '.' "gdoc".toList ".pdf".toList fname =
          (env.tempDir ++ ['/']) ++ replaceAll '.' "gdoc".toList ".pdf".toList fname from by
            simp]
      exact endsWith_append_left _ (replaceGdoc_endsWith hgdoc)
  · intro hnodoc
    have hnodocL : hasOcc ('d' :: 'o' :: 'c' :: 'u' :: 'm' :: 'e' :: 'n' :: 't' :: [])
        mime = false := hnodoc
    simp [download_file, hpub, hmeta, hgapps, hnodocL]

/-- Witness for C5: a Google Doc requested as `notes.gdoc` is exported
and saved as `notes.pdf`; a Google Sheet is rejected. -/
theorem c5_export_native_document_witness :
    (download_file
        ⟨fun _ _ => Except.error "e1".toList, "/tmp".toList,
          fun _ => Except.ok "application/vnd.google-apps.document".toList,
          fun _ => Except.ok (), fun _ => Except.ok ()⟩
        true "f1".toList "notes.gdoc".toList =
      .ok (pathJoin "/tmp".toList
        (replaceAll '.' "gdoc".toList ".pdf".toList "notes.gdoc".toList)) ∧
      endsWithL (pathJoin "/tmp".toList
        (replaceAll '.' "gdoc".toList ".pdf".toList "notes.gdoc".toList))
        ".pdf".toList = true) ∧
    download_file
      ⟨fun _ _ => Except.error "e1".toList, "/tmp".toList,
        fun _ => Except.ok "application/vnd.google-apps.spreadsheet".toList,
        fun _ => Except.ok (), fun _ => Except.ok ()⟩
      true "f1".toList "sheet.gdoc".toList =
      .error (unsupportedMsg "application/vnd.google-apps.spreadsheet".toList) :=
  ⟨(c5_export_native_document _ _ _ _ _ rfl rfl (by decide)).1
      (by decide) rfl (by decide),
    (c5_export_native_document _ _ _ _ _ rfl rfl (by decide)).2 (by decide)⟩

theorem dlLoop_ok (denv : DlEnv) (service : Bool) (pf : FileRec → List Char) :
    ∀ (l : List FileRec),
      (∀ f ∈ l, download_file denv service f.id f.name = .ok (pf f)) →
      dlLoop denv service l = l.map (fun f => ⟨f, pf f⟩) := by
  intro l
  induction l with
  | nil => intro _; rfl
  | cons f rest ih =>
    intro h
    simp only [dlLoop, h f (List.mem_cons_self f rest),
      ih (fun g hg => h g (List.mem_cons_of_mem f hg)), List.map_cons]

theorem dlLoop_one_failure (denv : DlEnv) (service : Bool) (pf : FileRec → List Char)
    (bad : FileRec) (e : List Char)
    (hbad : download_file denv service bad.id bad.name = .error e) :
    ∀ (as bs : List FileRec),
      (∀ f ∈ as ++ bs, download_file denv service f.id f.name = .ok (pf f)) →
      dlLoop denv service (as ++ bad :: bs) = (as ++ bs).map (fun f => ⟨f, pf f⟩) := by
  intro as
  induction as with
  | nil =>
    intro bs h
    simp only [List.nil_append] at h ⊢
    simp only [dlLoop, hbad]
    exact dlLoop_ok denv service pf bs h
  | cons a as ih =>
    intro bs h
    simp only [List.cons_append] at h ⊢
    simp only [dlLoop, h a (List.mem_cons_self a _), List.map_cons]
    rw [ih bs (fun g hg => h g (List.mem_cons_of_mem a hg))]

/-- Claim C3: when the folder listing yields `N` files of which exactly
one fails to download and the rest succeed, `download_folder` returns
`.ok` (the failure is caught, not re-raised) with exactly the `N - 1`
successfully downloaded records, each carrying its local path. -/
theorem c3_download_folder_skips_failure (denv : DlEnv) (penv : PubEnv)
    (service : Bool) (root : DriveNode) (url : List Char) (recursive : Bool)
    (as bs : List FileRec) (bad : FileRec) (pf : FileRec → List Char)
    (hlist : folderListing penv service root url recursive = .ok (as ++ bad :: bs))
    (hok : ∀ f ∈ as ++ bs, download_file denv service f.id f.name = .ok (pf f))
    (hbad : ∃ e, download_file denv service bad.id bad.name = .error e) :
    download_folder denv penv service root url recursive =
      .ok ((as ++ bs).map (fun f => ⟨f, pf f⟩)) ∧
    ((as ++ bs).map (fun f => (⟨f, pf f⟩ : DlRec))).length + 1 =
      (as ++ bad :: bs).length := by
  obtain ⟨e, he⟩ := hbad
  constructor
  · simp only [download_folder, hlist]
    rw [dlLoop_one_failure denv service pf bad e he as bs hok]
  · simp only [List.length_map, List.length_append, List.length_cons]
    omega

/-- Witness for C3: a three-file folder (flat listing through the OAuth
fallback) where the middle file's download fails yields exactly the two
successful records. -/
theorem c3_download_folder_skips_failure_witness :
    download_folder
      ⟨fun i n => if i = "b".toList then Except.error "bad file".toList
          else Except.ok ("/tmp/".toList ++ n), "/tmp".toList,
        fun _ => Except.error "meta".toList,
        fun _ => Except.ok (), fun _ => Except.ok ()⟩
      ⟨Except.error "net".toList, [], fun _ => ViewOutcome.fail [], Except.error []⟩
      true
      (DriveNode.folder ⟨"r".toList, "root".toList, folderMime, none, none⟩
        [DriveNode.file ⟨"a".toList, "fa.pdf".toList, pdfMime, some 1, none⟩,
         DriveNode.file ⟨"b".toList, "fb.pdf".toList, pdfMime, some 2, none⟩,
         DriveNode.file ⟨"c".toList, "fc.pdf".toList, pdfMime, some 3, none⟩])
      "FOLD".toList false =
      .ok (([mkFlatRec ⟨"a".toList, "fa.pdf".toList, pdfMime, some 1, none⟩,
             mkFlatRec ⟨"c".toList, "fc.pdf".toList, pdfMime, some 3, none⟩]).map
        (fun f => ⟨f, "/tmp/".toList ++ f.name⟩)) :=
  (c3_download_folder_skips_failure
    ⟨fun i n => if i = "b".toList then Except.error "bad file".toList
        else Except.ok ("/tmp/".toList ++ n), "/tmp".toList,
      fun _ => Except.error "meta".toList,
      fun _ => Except.ok (), fun _ => Except.ok ()⟩
    ⟨Except.error "net".toList, [], fun _ => ViewOutcome.fail [], Except.error []⟩
    true
    (DriveNode.folder ⟨"r".toList, "root".toList, folderMime, none, none⟩
      [DriveNode.file ⟨"a".toList, "fa.pdf".toList, pdfMime, some 1, none⟩,
       DriveNode.file ⟨"b".toList, "fb.pdf".toList, pdfMime, some 2, none⟩,
       DriveNode.file ⟨"c".toList, "fc.pdf".toList, pdfMime, some 3, none⟩])
    "FOLD".toList false
    [mkFlatRec ⟨"a".toList, "fa.pdf".toList, pdfMime, some 1, none⟩]
    [mkFlatRec ⟨"c".toList, "fc.pdf".toList, pdfMime, some 3, none⟩]
    (mkFlatRec ⟨"b".toList, "fb.pdf".toList, pdfMime, some 2, none⟩)
    (fun f => "/tmp/".toList ++ f.name)
    rfl
    (by
      intro f hf
      simp only [List.mem_append, List.mem_singleton] at hf
      rcases hf with rfl | rfl <;> rfl)
    ⟨"meta".toList, rfl⟩).1

theorem scrapeCandidate_pdf {view : List Char → ViewOutcome}
    {folderId fid : List Char} {r : FileRec}
    (h : r ∈ scrapeCandidate view [".pdf".toList] folderId fid) :
    endsWithL (lowerL r.name) ".pdf".toList = true := by
  simp only [scrapeCandidate] at h
  split at h
  · simp at h
  · split at h
    · simp at h
    · split at h
      · split at h
        · next hcond =>
          simp only [List.mem_singleton] at h
          subst h
          simp only [List.any_cons, List.any_nil, Bool.or_false] at hcond
          simpa [mkPubRec] using hcond
        · simp at h
      · simp at h

theorem scrapeAll_pdf {view : List Char → ViewOutcome} {folderId : List Char} :
    ∀ (cands : List (List Char)) (r : FileRec),
      r ∈ scrapeAll view [".pdf".toList] folderId cands →
      endsWithL (lowerL r.name) ".pdf".toList = true := by
  intro cands
  induction cands with
  | nil => intro r h; simp [scrapeAll] at h
  | cons fid rest ih =>
    intro r h
    rw [scrapeAll, List.mem_append] at h
    rcases h with h | h
    · exact scrapeCandidate_pdf h
    · exact ih r h

/-- Claim C4: with the requested MIME filter `['application/pdf']`, every
record the public listing returns has a derived name ending in `.pdf`
case-insensitively. -/
theorem c4_public_listing_pdf_only (env : PubEnv) (url : List Char)
    (fs : List FileRec)
    (h : (list_folder_files_public env url (some [pdfMime])).1 = .ok fs) :
    ∀ r ∈ fs, endsWithL (lowerL r.name) ".pdf".toList = true := by
  intro r hr
  cases hfp : env.folderPage with
  | error e => simp [list_folder_files_public, hfp] at h
  | ok st =>
    by_cases hst : st = 200
    · subst hst
      simp only [list_folder_files_public, hfp, if_pos rfl] at h
      have hfs : scrapeAll env.view
          (allowedExtensions ((some [pdfMime]).getD [pdfMime]))
          (extract_folder_id url) env.candidates = fs := by
        simpa using h
      rw [← hfs] at hr
      have hall : allowedExtensions ((some [pdfMime]).getD [pdfMime]) =
          [".pdf".toList] := by decide
      rw [hall] at hr
      exact scrapeAll_pdf env.candidates r hr
    · simp [list_folder_files_public, hfp, hst] at h

/-- Witness for C4: a candidate resolving to the name `Doc.PDF` survives
the filter and its name ends in `.pdf` case-insensitively. -/
theorem c4_public_listing_pdf_only_witness :
    endsWithL (lowerL (mkPubRec "f1".toList "Doc.PDF".toList).name)
      ".pdf".toList = true :=
  c4_public_listing_pdf_only
    ⟨Except.ok 200, ["f1".toList],
      fun _ => ViewOutcome.page 200 (some "Doc.PDF".toList), Except.error []⟩
    "FOLD".toList [mkPubRec "f1".toList "Doc.PDF".toList] rfl
    (mkPubRec "f1".toList "Doc.PDF".toList) (List.mem_singleton.2 rfl)

/-- Claim C6: a reachable (HTTP 200) folder page from which no candidate
ids are extracted makes the public listing return `.ok []` without
raising, while a non-200 page makes it raise an access error (whose
message carries the `Cannot access folder` cause). -/
theorem c6_public_listing_empty_page :
    (∀ (env : PubEnv) (url : List Char) (ftypes : Option (List (List Char))),
      env.folderPage = .ok 200 → env.candidates = [] →
      (list_folder_files_public env url ftypes).1 = .ok []) ∧
    (∀ (env : PubEnv) (url : List Char) (ftypes : Option (List (List Char)))
      (st : Nat), env.folderPage = .ok st → st ≠ 200 →
      ∃ msg, (list_folder_files_public env url ftypes).1 = .error msg ∧
        hasOcc "Cannot access folder".toList msg = true) := by
  constructor
  · intro env url ftypes hfp hcand
    simp [list_folder_files_public, hfp, hcand, scrapeAll]
  · intro env url ftypes st hfp hst
    refine ⟨pubErrWrap (statusMsg st), ?_, ?_⟩
    · simp [list_folder_files_public, hfp, hst]
    · rw [pubErrWrap, statusMsg,
        show "Cannot access folder. Status: ".toList =
          "Cannot access folder".toList ++ ". Status: ".toList from by decide]
      have := hasOcc_of_append "Cannot access folder".toList
        "Folder is not publicly accessible or error occurred: ".toList
        (". Status: ".toList ++ (toString st).toList)
      simpa [List.append_assoc] using this

/-- Witness for C6 at two concrete environments: a 200 page with no
candidates, and a 404 page. -/
theorem c6_public_listing_empty_page_witness :
    (list_folder_files_public
      ⟨Except.ok 200, [], fun _ => ViewOutcome.fail [], Except.error []⟩
      "F".toList none).1 = .ok [] ∧
    ∃ msg, (list_folder_files_public
      ⟨Except.ok 404, [], fun _ => ViewOutcome.fail [], Except.error []⟩
      "F".toList none).1 = .error msg ∧
      hasOcc "Cannot access folder".toList msg = true :=
  ⟨c6_public_listing_empty_page.1 _ "F".toList none rfl rfl,
    c6_public_listing_empty_page.2 _ "F".toList none 404 rfl (by decide)⟩

/-- Claim C9: the last-resort `?usp=sharing` pass never contributes
records — the listing result is the same whatever the sharing-page
refetch returns — and its warning can only fire when the accumulated
file list is empty. -/
theorem c9_last_resort_pass_frame :
    (∀ (env : PubEnv) (url : List Char) (ft : Option (List (List Char)))
      (s1 s2 : Except (List Char) (Nat × Bool)),
      (list_folder_files_public { env with sharing := s1 } url ft).1 =
      (list_folder_files_public { env with sharing := s2 } url ft).1) ∧
    (∀ (env : PubEnv) (url : List Char) (ft : Option (List (List Char))),
      (list_folder_files_public env url ft).2 = true →
      (list_folder_files_public env url ft).1 = .ok []) := by
  constructor
  · intro env url ft s1 s2
    cases hfp : env.folderPage with
    | error e => simp [list_folder_files_public, hfp]
    | ok st =>
      by_cases hst : st = 200
      · subst hst
        simp [list_folder_files_public, hfp]
      · simp [list_folder_files_public, hfp, hst]
  · intro env url ft h
    cases hfp : env.folderPage with
    | error e => simp [list_folder_files_public, hfp] at h
    | ok st =>
      by_cases hst : st = 200
      · subst hst
        simp only [list_folder_files_public, hfp, if_pos rfl] at h ⊢
        cases hemp : (scrapeAll env.view
            (allowedExtensions (ft.getD [pdfMime]))
            (extract_folder_id url) env.candidates).isEmpty with
        | false => rw [hemp] at h; simp at h
        | true =>
          have := List.isEmpty_iff.1 hemp
          simp [this]
      · simp [list_folder_files_public, hfp, hst] at h

/-- Witness for C9's warning guard: an empty listing whose sharing
refetch finds PDF references warns, and the result is still `.ok []`. -/
theorem c9_last_resort_pass_frame_witness :
    (list_folder_files_public
      ⟨Except.ok 200, [], fun _ => ViewOutcome.fail [], Except.ok (200, true)⟩
      "F".toList none).1 = .ok [] :=
  c9_last_resort_pass_frame.2
    ⟨Except.ok 200, [], fun _ => ViewOutcome.fail [], Except.ok (200, true)⟩
    "F".toList none rfl

/-- Claim C7: an authenticated recursive listing of a folder whose only
item is a subfolder holding one type-matching file yields exactly one
record, whose `path` is `<subfolder-name>/<file-name>`. -/
theorem c7_recursive_single_nested_file (rm sm fm : FileMeta)
    (ft : Option (List (List Char))) (hsub : sm.mimeType = folderMime)
    (hfile : fm.mimeType ≠ folderMime) (hpass : passFilter ft fm.mimeType = true)
    (hname : sm.name ≠ []) :
    list_folder_recursive true
        (DriveNode.folder rm [DriveNode.folder sm [DriveNode.file fm]]) ft =
      .ok [mkPathRec sm.name fm] ∧
    (mkPathRec sm.name fm).path = some (sm.name ++ '/' :: fm.name) := by
  have hne : sm.name.isEmpty = false := by
    cases h : sm.name.isEmpty with
    | false => rfl
    | true => exact absurd (List.isEmpty_iff.1 h) hname
  constructor
  · simp [list_folder_recursive, recurseFolder, recurseList, hsub, hfile, hpass,
      joinPath, hne]
  · simp [mkPathRec, joinPath, hne]

/-- Witness for C7: one subfolder `sub` holding `doc.pdf` under a PDF
filter. -/
theorem c7_recursive_single_nested_file_witness :
    list_folder_recursive true
        (DriveNode.folder ⟨"r".toList, "root".toList, folderMime, none, none⟩
          [DriveNode.folder ⟨"s".toList, "sub".toList, folderMime, none, none⟩
            [DriveNode.file ⟨"f".toList, "doc.pdf".toList, pdfMime, some 1, none⟩]])
        (some [pdfMime]) =
      .ok [mkPathRec "sub".toList
        ⟨"f".toList, "doc.pdf".toList, pdfMime, some 1, none⟩] ∧
    (mkPathRec "sub".toList
        ⟨"f".toList, "doc.pdf".toList, pdfMime, some 1, none⟩).path =
      some ("sub".toList ++ '/' :: "doc.pdf".toList) :=
  c7_recursive_single_nested_file
    ⟨"r".toList, "root".toList, folderMime, none, none⟩
    ⟨"s".toList, "sub".toList, folderMime, none, none⟩
    ⟨"f".toList, "doc.pdf".toList, pdfMime, some 1, none⟩
    (some [pdfMime]) rfl (by decide) (by decide) (by decide)

/-- Claim C8: a subfolder whose children query raises contributes no
records but leaves every sibling's (and already-collected) records
intact, and `list_folder_recursive` still returns `.ok` — the failure
never reaches the caller. -/
theorem c8_subfolder_failure_isolated (ft : Option (List (List Char)))
    (path : List Char) (pre post : List DriveNode) (m rm : FileMeta)
    (e : List Char) (hm : m.mimeType = folderMime) :
    recurseList ft path (pre ++ DriveNode.badFolder m e :: post) =
      recurseList ft path (pre ++ post) ∧
    list_folder_recursive true
        (DriveNode.folder rm (pre ++ DriveNode.badFolder m e :: post)) ft =
      list_folder_recursive true (DriveNode.folder rm (pre ++ post)) ft := by
  have key : ∀ (p : List Char),
      recurseList ft p (pre ++ DriveNode.badFolder m e :: post) =
      recurseList ft p (pre ++ post) := by
    induction pre with
    | nil => intro p; simp [recurseList, hm]
    | cons h pre ih => intro p; cases h <;> simp [recurseList, ih p]
  exact ⟨key path, by simp [list_folder_recursive, recurseFolder, key []]⟩

/-- Witness for C8: a failing subfolder between two PDF files changes
nothing. -/
theorem c8_subfolder_failure_isolated_witness :
    recurseList (some [pdfMime]) []
        ([DriveNode.file ⟨"a".toList, "fa.pdf".toList, pdfMime, none, none⟩] ++
          DriveNode.badFolder ⟨"b".toList, "sub".toList, folderMime, none, none⟩
            "query failed".toList ::
          [DriveNode.file ⟨"c".toList, "fc.pdf".toList, pdfMime, none, none⟩]) =
      recurseList (some [pdfMime]) []
        ([DriveNode.file ⟨"a".toList, "fa.pdf".toList, pdfMime, none, none⟩] ++
          [DriveNode.file ⟨"c".toList, "fc.pdf".toList, pdfMime, none, none⟩]) ∧
    list_folder_recursive true
        (DriveNode.folder ⟨"r".toList, "root".toList, folderMime, none, none⟩
          ([DriveNode.file ⟨"a".toList, "fa.pdf".toList, pdfMime, none, none⟩] ++
            DriveNode.badFolder ⟨"b".toList, "sub".toList, folderMime, none, none⟩
              "query failed".toList ::
            [DriveNode.file ⟨"c".toList, "fc.pdf".toList, pdfMime, none, none⟩]))
        (some [pdfMime]) =
      list_folder_recursive true
        (DriveNode.folder ⟨"r".toList, "root".toList, folderMime, none, none⟩
          ([DriveNode.file ⟨"a".toList, "fa.pdf".toList, pdfMime, none, none⟩] ++
            [DriveNode.file ⟨"c".toList, "fc.pdf".toList, pdfMime, none, none⟩]))
        (some [pdfMime]) :=
  c8_subfolder_failure_isolated (some [pdfMime]) [] _ _ _ _ _ rfl

theorem recurseList_some_nil : ∀ (n : Nat) (path : List Char) (l : List DriveNode),
    sizeOf l ≤ n → recurseList (some []) path l = recurseList none path l := by
  intro n
  induction n with
  | zero =>
    intro path l h
    cases l with
    | nil => simp [recurseList]
    | cons x xs => simp at h
  | succ n ih =>
    intro path l h
    cases l with
    | nil => simp [recurseList]
    | cons x xs =>
      cases x with
      | file m =>
        have hxs : sizeOf xs ≤ n := by simp at h; omega
        simp only [recurseList, passFilter, List.isEmpty_nil, Bool.true_or]
        rw [ih path xs hxs]
      | folder m cs =>
        have hxs : sizeOf xs ≤ n := by simp at h; omega
        have hcs : sizeOf cs ≤ n := by simp at h; omega
        simp only [recurseList, passFilter, List.isEmpty_nil, Bool.true_or]
        rw [ih (joinPath path m.name) cs hcs, ih path xs hxs]
      | badFolder m e =>
        have hxs : sizeOf xs ≤ n := by simp at h; omega
        simp only [recurseList, passFilter, List.isEmpty_nil, Bool.true_or]
        rw [ih path xs hxs]

/-- Claim C10: an empty MIME-type filter list disables filtering
entirely — the flat OAuth listing (reached when the public path fails)
returns every provider item, folders included, and the recursive
listing's filter behaves exactly like Python `None`. -/
theorem c10_empty_filter_no_filtering :
    (∀ (penv : PubEnv) (root : DriveNode) (url e : List Char)
      (metas : List FileMeta),
      (list_folder_files_public penv url (some [])).1 = .error e →
      flatQuery root = .ok metas →
      list_folder_files penv true root url (some []) = .ok (metas.map mkFlatRec)) ∧
    (∀ (path : List Char) (l : List DriveNode),
      recurseList (some []) path l = recurseList none path l) := by
  constructor
  · intro penv root url e metas hpub hq
    have hof : ∀ ms : List FileMeta, oauthFilter [] ms = ms.map mkFlatRec := by
      intro ms
      induction ms with
      | nil => rfl
      | cons m rest ih => simp [oauthFilter, ih]
    simp [list_folder_files, hpub, hq, hof]
  · intro path l
    exact recurseList_some_nil (sizeOf l) path l le_rfl

/-- Witness for C10: with filter `[]`, the flat OAuth listing returns a
subfolder item and a text file unchanged. -/
theorem c10_empty_filter_no_filtering_witness :
    list_folder_files
        ⟨Except.error "net".toList, [], fun _ => ViewOutcome.fail [], Except.error []⟩
        true
        (DriveNode.folder ⟨"r".toList, "root".toList, folderMime, none, none⟩
          [DriveNode.folder ⟨"s".toList, "sub".toList, folderMime, none, none⟩ [],
           DriveNode.file ⟨"t".toList, "notes.txt".toList, "text/plain".toList,
             some 7, none⟩])
        "F".toList (some []) =
      .ok ([(⟨"s".toList, "sub".toList, folderMime, none, none⟩ : FileMeta),
            ⟨"t".toList, "notes.txt".toList, "text/plain".toList, some 7, none⟩].map
        mkFlatRec) :=
  c10_empty_filter_no_filtering.1
    ⟨Except.error "net".toList, [], fun _ => ViewOutcome.fail [], Except.error []⟩
    (DriveNode.folder ⟨"r".toList, "root".toList, folderMime, none, none⟩
      [DriveNode.folder ⟨"s".toList, "sub".toList, folderMime, none, none⟩ [],
       DriveNode.file ⟨"t".toList, "notes.txt".toList, "text/plain".toList,
         some 7, none⟩])
    "F".toList
    (pubErrWrap "net".toList)
    [⟨"s".toList, "sub".toList, folderMime, none, none⟩,
     ⟨"t".toList, "notes.txt".toList, "text/plain".toList, some 7, none⟩]
    rfl rfl

end GoogleDrive
